import Mathlib

/-!
Verification development for the dockerust registry.

Modelling conventions:
* Rust strings are modelled as Lean `String`s, i.e. sequences of characters;
  lengths and indices are counted in characters.  The one operation where the
  byte/character distinction changes behaviour — the byte slice inside
  `data_path`, together with the byte-counting length check of `from_str`
  that feeds it — is additionally modelled at UTF-8 byte level
  (`BlobRefBytes`).
* Filesystem state is modelled explicitly per subsystem: the garbage
  collector works on a `Storage` value (repositories with their link-file
  contents plus the content-addressed blob store), the upload endpoint on an
  `UploadStore`, the repository scan on an `FsTree` directory tree.
* Fallible Rust code returning `std::io::Result` is modelled with
  `Except Unit`; the unbounded recursion of the garbage collector is modelled
  with an explicit fuel parameter, where a result of `none` means the fuel ran
  out on every extension, i.e. the code does not return.
* The external `sha256sum` tool is modelled as an explicit function parameter
  of the operations that invoke it.
-/

set_option maxRecDepth 10000

/-- Model of `BlobReference` from src/storage.rs: a parsed digest. -/
structure BlobRef where
  alg : String
  hash : String
deriving DecidableEq, Repr

/-- The hex part of the well-known empty-blob digest (src/storage.rs, `is_empty_ref`). -/
def emptyBlobHash : String :=
  "e3b0c44298fc1c149afbf4c8996fb92427ae41e4649b934ca495991b7852b855"

/-- `BlobReference::is_empty_ref`. -/
def BlobRef.is_empty_ref (r : BlobRef) : Bool :=
  r.alg = "sha256" && r.hash = emptyBlobHash

/-- `BlobReference::to_digest`. -/
def BlobRef.to_digest (r : BlobRef) : String :=
  r.alg ++ ":" ++ r.hash

/-- `BlobReference::from_sha256sum`. -/
def BlobRef.from_sha256sum (h : String) : BlobRef :=
  { alg := "sha256", hash := h }

/-- Model of Rust `content.splitn(2, ':')`: split a character sequence at the
first colon, returning `none` when no colon occurs (one fragment) and
`some (before, after)` when one does (two fragments). -/
def splitFirstColon : List Char → Option (List Char × List Char)
  | [] => none
  | c :: rest =>
    if c = ':' then some ([], rest)
    else (splitFirstColon rest).map (fun p => (c :: p.1, p.2))

/-- `BlobReference::from_str` (src/storage.rs lines 54-73): requires the
`splitn(2, ':')` split to yield two fragments and the second fragment to
have length greater than 2. -/
def BlobRef.from_str (content : String) : Except Unit BlobRef :=
  match splitFirstColon content.toList with
  | none => .error ()
  | some (l, r) =>
    if r.length ≤ 2 then .error ()
    else .ok { alg := l.asString, hash := r.asString }

/-- `BlobReference::is_valid_reference`. -/
def BlobRef.is_valid_reference (r : String) : Bool :=
  (BlobRef.from_str r).toBool

/-- The condition claimed by C6 for a successful parse: exactly one colon,
non-empty left part, right part of length at least 3. -/
def c6ClaimCond (s : String) : Bool :=
  (s.toList.count ':' = 1) &&
  (s.toList.takeWhile (fun c => c ≠ ':') ≠ []) &&
  (3 ≤ ((s.toList.dropWhile (fun c => c ≠ ':')).tail).length)

/-- The condition actually enforced by the code: at least one colon, and the
part after the first colon has length at least 3. -/
def c6ActualCond (s : String) : Prop :=
  ':' ∈ s.toList ∧ 3 ≤ ((s.toList.dropWhile (fun c => c ≠ ':')).tail).length

theorem splitFirstColon_none_of_not_mem : ∀ {l : List Char}, ':' ∉ l →
    splitFirstColon l = none
  | [], _ => rfl
  | c :: rest, h => by
    have hc : ¬ c = ':' := fun e => h (e ▸ List.mem_cons_self c rest)
    have hr : ':' ∉ rest := fun e => h (List.mem_cons_of_mem c e)
    simp [splitFirstColon, hc, splitFirstColon_none_of_not_mem hr]

theorem splitFirstColon_some_of_mem : ∀ {l : List Char}, ':' ∈ l →
    splitFirstColon l =
      some (l.takeWhile (fun c => c ≠ ':'), (l.dropWhile (fun c => c ≠ ':')).tail)
  | c :: rest, h => by
    by_cases hc : c = ':'
    · subst hc
      simp [splitFirstColon, List.takeWhile_cons, List.dropWhile_cons]
    · have hrest : ':' ∈ rest := by
        rcases List.mem_cons.mp h with h1 | h1
        · exact absurd h1.symm hc
        · exact h1
      rw [List.takeWhile_cons, List.dropWhile_cons]
      simp only [splitFirstColon, if_neg hc, splitFirstColon_some_of_mem hrest,
        Option.map_some]
      have hcne : decide (c ≠ ':') = true := by simpa using hc
      simp [hcne]

/-- C6 counterexample input: a string with an empty part left of the colon. -/
def c6Input : String := ":abc"

/-- C6 — counterexample: the claim requires the left part of the colon to be
non-empty, but the code accepts an input whose left part is empty: parsing
":abc" succeeds while the claimed condition rejects it. -/
theorem c6_counterexample :
    (BlobRef.from_str c6Input).toBool = true ∧ c6ClaimCond c6Input = false := by
  constructor <;> rfl

/-- C6 (amended): parsing succeeds iff the input contains at least one colon
and the part after the first colon has length at least 3; the left part may
be empty and further colons are allowed (they become part of the hash).  In
particular a hex part of length 3 is accepted and one of length 2 rejected. -/
theorem c6_amended (s : String) :
    (BlobRef.from_str s).toBool = true ↔ c6ActualCond s := by
  unfold BlobRef.from_str c6ActualCond
  split
  · rename_i hnone
    have hmem : ':' ∉ s.toList := by
      intro hmem
      rw [splitFirstColon_some_of_mem hmem] at hnone
      cases hnone
    constructor
    · intro h; cases h
    · intro h; exact absurd h.1 hmem
  · rename_i l r heq
    have hmem : ':' ∈ s.toList := by
      by_contra hn
      rw [splitFirstColon_none_of_not_mem hn] at heq
      cases heq
    rw [splitFirstColon_some_of_mem hmem] at heq
    obtain ⟨rfl, rfl⟩ : l = s.toList.takeWhile (fun c => c ≠ ':') ∧
        r = (s.toList.dropWhile (fun c => c ≠ ':')).tail := by
      cases heq; exact ⟨rfl, rfl⟩
    by_cases hlen : ((s.toList.dropWhile (fun c => c ≠ ':')).tail).length ≤ 2
    · rw [if_pos hlen]
      constructor
      · intro h; cases h
      · intro h; omega
    · rw [if_neg hlen]
      constructor
      · intro _; exact ⟨hmem, by omega⟩
      · intro _; rfl

/-! ### C10: blob path construction (src/storage.rs `data_path`, lines 39-47)

The slice `&self.hash[..2]` indexes the BYTES of a UTF-8 string and panics
when byte index 2 is not a character boundary, while `from_str` checks the
byte length of the part after the colon.  The byte/character distinction
decides this claim, so the two functions it concerns are modelled here at
byte level: a Rust string is the list of its UTF-8 bytes.  (A colon is the
single byte 58, which never occurs inside a multi-byte character, so the
split needs no boundary care.) -/

/-- The UTF-8 bytes of an ASCII string literal. -/
def asciiBytes (s : String) : List Nat := s.toList.map Char.toNat

/-- A UTF-8 continuation byte (0x80-0xBF).  A position strictly inside a
string is a character boundary iff its byte is not a continuation byte. -/
def isContinuationByte (b : Nat) : Bool := 128 ≤ b && b < 192

/-- `content.splitn(2, ':')` at byte level: split at the first byte 58. -/
def splitFirstColonBytes : List Nat → Option (List Nat × List Nat)
  | [] => none
  | b :: rest =>
    if b = 58 then some ([], rest)
    else (splitFirstColonBytes rest).map (fun p => (b :: p.1, p.2))

/-- `BlobReference` with its fields as UTF-8 byte lists. -/
structure BlobRefBytes where
  alg : List Nat
  hash : List Nat
deriving DecidableEq, Repr

/-- `BlobReference::from_str` at byte level: `split[1].len()` counts BYTES,
so e.g. a one-character three-byte suffix is accepted. -/
def BlobRefBytes.from_str (content : List Nat) : Except Unit BlobRefBytes :=
  match splitFirstColonBytes content with
  | none => .error ()
  | some (l, r) =>
    if r.length ≤ 2 then .error ()
    else .ok { alg := l, hash := r }

/-- `BlobReference::data_path` at byte level, as the path segments below the
storage root.  `&self.hash[..2]` panics (modelled as `none`) when the hash is
shorter than two bytes or when byte index 2 falls strictly inside a
multi-byte character, i.e. on a continuation byte. -/
def BlobRefBytes.data_path (r : BlobRefBytes) : Option (List (List Nat)) :=
  if r.hash.length < 2 then none
  else if 2 < r.hash.length ∧ isContinuationByte (r.hash.getD 2 0) = true then
    none
  else
    some [asciiBytes "docker", asciiBytes "registry", asciiBytes "v2",
      asciiBytes "blobs", r.alg, r.hash.take 2, r.hash, asciiBytes "data"]

/-- C10 — counterexample: `data_path` is NOT total on parser-produced
references.  The parser counts bytes, so it accepts the five bytes
[97, 58, 226, 130, 172] — the character a, a colon, then the single
three-byte character U+20AC — giving the hash [226, 130, 172] of byte
length 3.  `data_path` then slices `&hash[..2]`, but byte index 2 holds the
continuation byte 172, not a character boundary, so the Rust code panics. -/
theorem c10_counterexample :
    BlobRefBytes.from_str [97, 58, 226, 130, 172] =
      .ok { alg := [97], hash := [226, 130, 172] } ∧
    BlobRefBytes.data_path { alg := [97], hash := [226, 130, 172] } = none := by
  constructor <;> rfl

/-- C10 (amended): every successfully parsed `BlobReference` has a hash of
at least 3 bytes, so the 2-byte slice index of `data_path` is always in
range; `data_path` returns the sharded path `blobs/alg/hash[0:2]/hash/data`
whenever byte index 2 of the hash is a character boundary — in particular
for every ASCII (hex) hash — but panics when the hash's third byte is a
UTF-8 continuation byte, so it is not total on all parser-produced
references. -/
theorem c10_amended (s : List Nat) (r : BlobRefBytes)
    (h : BlobRefBytes.from_str s = .ok r)
    (hb : isContinuationByte (r.hash.getD 2 0) = false) :
    3 ≤ r.hash.length ∧
      r.data_path = some [asciiBytes "docker", asciiBytes "registry",
        asciiBytes "v2", asciiBytes "blobs", r.alg, r.hash.take 2, r.hash,
        asciiBytes "data"] := by
  unfold BlobRefBytes.from_str at h
  split at h
  · cases h
  · rename_i l r2 heq
    split at h
    · cases h
    · rename_i hlen
      cases h
      constructor
      · show 3 ≤ r2.length
        omega
      · unfold BlobRefBytes.data_path
        rw [if_neg (by simp only []; omega)]
        rw [if_neg ?hneg]
        case hneg =>
          rintro ⟨_, hcont⟩
          rw [hb] at hcont
          cases hcont

/-- C10 witness: the concrete ASCII digest string "sha256:abc", parsed at
byte level and its data path built. -/
theorem c10_witness :
    3 ≤ (BlobRefBytes.mk (asciiBytes "sha256") (asciiBytes "abc")).hash.length ∧
      (BlobRefBytes.mk (asciiBytes "sha256") (asciiBytes "abc")).data_path =
        some [asciiBytes "docker", asciiBytes "registry", asciiBytes "v2",
          asciiBytes "blobs",
          (BlobRefBytes.mk (asciiBytes "sha256") (asciiBytes "abc")).alg,
          (BlobRefBytes.mk (asciiBytes "sha256") (asciiBytes "abc")).hash.take 2,
          (BlobRefBytes.mk (asciiBytes "sha256") (asciiBytes "abc")).hash,
          asciiBytes "data"] :=
  c10_amended (asciiBytes "sha256:abc")
    (BlobRefBytes.mk (asciiBytes "sha256") (asciiBytes "abc")) rfl rfl

/-! ### C7: paginated catalog (src/server.rs `catalog`, lines 257-285) -/

def mtDockerManifest : String :=
  "application/vnd.docker.distribution.manifest.v2+json"

def mtDockerManifestList : String :=
  "application/vnd.docker.distribution.manifest.list.v2+json"

/-- `DockerBlobRef` (src/docker.rs): an unparsed blob reference in a manifest. -/
structure DockerBlobRef where
  mediaType : String
  digest : String
  size : Option Nat
deriving DecidableEq, Repr

/-- `DockerManifest` (src/docker.rs): the image-manifest view. -/
structure DockerManifest where
  schemaVersion : Nat
  mediaType : String
  config : DockerBlobRef
  layers : List DockerBlobRef
deriving DecidableEq, Repr

/-- `DockerManifestList` (src/docker.rs): the manifest-list view. -/
structure DockerManifestList where
  schemaVersion : Nat
  mediaType : String
  manifests : List DockerBlobRef
deriving DecidableEq, Repr

/-- `DockerManifestOrManifestList` (src/docker.rs): the polymorphic envelope. -/
structure DockerManifestOrManifestList where
  schemaVersion : Nat
  mediaType : String
  config : Option DockerBlobRef
  layers : Option (List DockerBlobRef)
  manifests : Option (List DockerBlobRef)
deriving DecidableEq, Repr

/-- `DockerManifestOrManifestList::get_manifest`. -/
def DockerManifestOrManifestList.get_manifest
    (e : DockerManifestOrManifestList) : Option DockerManifest :=
  if e.mediaType = mtDockerManifest then
    match e.config, e.layers with
    | some c, some l => some ⟨e.schemaVersion, e.mediaType, c, l⟩
    | _, _ => none
  else none

/-- `DockerManifestOrManifestList::get_manifests_list`. -/
def DockerManifestOrManifestList.get_manifests_list
    (e : DockerManifestOrManifestList) : Option DockerManifestList :=
  if e.mediaType = mtDockerManifestList then
    match e.manifests with
    | some m => some ⟨e.schemaVersion, e.mediaType, m⟩
    | none => none
  else none

/-- `BlobReference::from_docker_blob_ref`. -/
def BlobRef.from_docker_blob_ref (r : DockerBlobRef) : Except Unit BlobRef :=
  BlobRef.from_str r.digest

/-- Contents of a stored blob, as observed by the collector. -/
inductive BlobContent where
  | junk : BlobContent
  | env : DockerManifestOrManifestList → BlobContent
deriving DecidableEq, Repr

/-- One repository: `revisions` holds, per entry of
`_manifests/revisions/sha256/`, the directory name and the contents of its
`link` file; `tags` holds, per tag with an existing `current/link`, the tag
name and the link contents. -/
structure RepoState where
  name : String
  revisions : List (String × String)
  tags : List (String × String)
deriving DecidableEq, Repr

/-- The storage state seen by the garbage collector. -/
structure Storage where
  repos : List RepoState
  blobs : List (BlobRef × BlobContent)
deriving DecidableEq, Repr

/-- Reading the blob file at `data_path` of a reference. -/
def lookupBlob (storage : Storage) (r : BlobRef) : Option BlobContent :=
  (storage.blobs.find? (fun p => p.1 = r)).map (fun p => p.2)

/-- `DockerImage::manifests_revision_list` body: parse each link file,
propagating the first parse failure. -/
def parseLinkList : List (String × String) → Except Unit (List BlobRef)
  | [] => .ok []
  | e :: rest =>
    match BlobRef.from_str e.2 with
    | .error u => .error u
    | .ok r =>
      match parseLinkList rest with
      | .error u => .error u
      | .ok l => .ok (r :: l)

/-- The tag loop of `is_blob_useless`: parse each tag link; keep the parsed
reference unless it is the empty-blob reference. -/
def collectTagRoots : List (String × String) → Except Unit (List BlobRef)
  | [] => .ok []
  | t :: rest =>
    match BlobRef.from_str t.2 with
    | .error u => .error u
    | .ok manifest_ref =>
      match collectTagRoots rest with
      | .error u => .error u
      | .ok l =>
        .ok (if manifest_ref.is_empty_ref then l else manifest_ref :: l)

/-- `is_blob_useless_in_docker_manifest`, layers loop. -/
def checkLayers (blob_ref : BlobRef) : List DockerBlobRef → Except Unit Bool
  | [] => .ok true
  | layer :: rest =>
    match BlobRef.from_docker_blob_ref layer with
    | .error u => .error u
    | .ok r => if r = blob_ref then .ok false else checkLayers blob_ref rest

/-- `is_blob_useless_in_docker_manifest` (src/storage.rs lines 233-247). -/
def is_blob_useless_in_docker_manifest (blob_ref : BlobRef)
    (manifest : DockerManifest) : Except Unit Bool :=
  match BlobRef.from_docker_blob_ref manifest.config with
  | .error u => .error u
  | .ok c =>
    if c = blob_ref then .ok false
    else checkLayers blob_ref manifest.layers

/-- The `for manifest_ref in &manifests_list.manifests` loop of
`is_blob_useless_in_distribution_file`; `distCall` is the recursive call into
`is_blob_useless_in_distribution_file` at the next depth, with the child as
the new upper manifest reference. -/
def scanManifestsList (distCall : BlobRef → Option (Except Unit Bool))
    (blob_ref upper_manifest_ref : BlobRef) :
    List DockerBlobRef → Option (Except Unit Bool)
  | [] => some (.ok true)
  | mref :: rest =>
    match BlobRef.from_docker_blob_ref mref with
    | .error u => some (.error u)
    | .ok manifest_ref =>
      if manifest_ref = blob_ref then some (.ok false)
      else if manifest_ref = upper_manifest_ref then
        scanManifestsList distCall blob_ref upper_manifest_ref rest
      else
        match distCall manifest_ref with
        | none => none
        | some (.error u) => some (.error u)
        | some (.ok false) => some (.ok false)
        | some (.ok true) =>
          scanManifestsList distCall blob_ref upper_manifest_ref rest

/-- `is_blob_useless_in_distribution_file` (src/storage.rs lines 250-291),
with fuel: `none` means the recursion did not bottom out within `fuel`. -/
def is_blob_useless_in_distribution_file :
    Nat → BlobRef → BlobRef → Storage → Option (Except Unit Bool)
  | 0, _, _, _ => none
  | fuel + 1, blob_ref, upper_manifest_ref, storage =>
    match lookupBlob storage upper_manifest_ref with
    | none => some (.ok true)
    | some .junk => some (.error ())
    | some (.env manifest) =>
      match manifest.get_manifest with
      | some m => some (is_blob_useless_in_docker_manifest blob_ref m)
      | none =>
        match manifest.get_manifests_list with
        | some manifests_list =>
          scanManifestsList
            (fun manifest_ref =>
              is_blob_useless_in_distribution_file fuel blob_ref manifest_ref
                storage)
            blob_ref upper_manifest_ref manifests_list.manifests
        | none => some (.ok true)

/-- The `for manifest_ref in manifest_blobs` loop of `is_blob_useless`. -/
def scanManifestRoots :
    Nat → BlobRef → Storage → List BlobRef → Option (Except Unit Bool)
  | _, _, _, [] => some (.ok true)
  | fuel, blob_ref, storage, manifest_ref :: rest =>
    if manifest_ref = blob_ref then some (.ok false)
    else
      match is_blob_useless_in_distribution_file fuel blob_ref manifest_ref
          storage with
      | none => none
      | some (.error u) => some (.error u)
      | some (.ok false) => some (.ok false)
      | some (.ok true) => scanManifestRoots fuel blob_ref storage rest

/-- Root collection of `is_blob_useless` for one repository: the parsed
revision links followed by the parsed non-empty tag links. -/
def manifest_blobs_of_repo (repo : RepoState) : Except Unit (List BlobRef) :=
  match parseLinkList repo.revisions with
  | .error u => .error u
  | .ok revs =>
    match collectTagRoots repo.tags with
    | .error u => .error u
    | .ok tagRoots => .ok (revs ++ tagRoots)

/-- The `for image in get_docker_images_list` loop of `is_blob_useless`. -/
def scanImages :
    Nat → BlobRef → Storage → List RepoState → Option (Except Unit Bool)
  | _, _, _, [] => some (.ok true)
  | fuel, blob_ref, storage, repo :: rest =>
    match manifest_blobs_of_repo repo with
    | .error u => some (.error u)
    | .ok manifest_blobs =>
      match scanManifestRoots fuel blob_ref storage manifest_blobs with
      | none => none
      | some (.error u) => some (.error u)
      | some (.ok false) => some (.ok false)
      | some (.ok true) => scanImages fuel blob_ref storage rest

/-- `is_blob_useless` (src/storage.rs lines 294-322). -/
def is_blob_useless (fuel : Nat) (blob_ref : BlobRef) (storage : Storage) :
    Option (Except Unit Bool) :=
  scanImages fuel blob_ref storage storage.repos

/-- `get_blob_list` (src/storage.rs lines 202-231): one reference per
third-level directory of `blobs/sha256/`. -/
def get_blob_list (storage : Storage) : List BlobRef :=
  (storage.blobs.filter (fun p => p.1.alg = "sha256")).map
    (fun p => BlobRef.from_sha256sum p.1.hash)

/-- `std::fs::remove_dir_all(blob.data_path(storage).parent())`: drop the
`blobs/alg/shard/hash` directory, i.e. every stored blob with that key. -/
def removeBlobDir (storage : Storage) (b : BlobRef) : Storage :=
  { storage with blobs := storage.blobs.filter (fun p => ¬ p.1 = b) }

/-- Outcome of a `clean_storage` run that returned: the final storage state,
tagged with whether the run returned `Ok` or propagated an `Err`. -/
inductive GcOut where
  | ok (s : Storage)
  | err (s : Storage)
deriving DecidableEq, Repr

def GcOut.state : GcOut → Storage
  | .ok s => s
  | .err s => s

/-- The `for blob in get_blob_list` loop of one `clean_storage` pass; an
`is_blob_useless` error aborts the run with the storage as mutated so far
(`remove_empty_dirs` only removes empty directories and is modelled as the
identity on `Storage`). -/
def sweepBlobs : Nat → Storage → List BlobRef → Option GcOut
  | _, storage, [] => some (.ok storage)
  | fuel, storage, blob :: rest =>
    if blob.is_empty_ref then sweepBlobs fuel storage rest
    else
      match is_blob_useless fuel blob storage with
      | none => none
      | some (.error _) => some (.err storage)
      | some (.ok false) => sweepBlobs fuel storage rest
      | some (.ok true) => sweepBlobs fuel (removeBlobDir storage blob) rest

/-- One pass of `clean_storage`: the blob list is sampled once, then swept. -/
def gcPass (fuel : Nat) (storage : Storage) : Option GcOut :=
  sweepBlobs fuel storage (get_blob_list storage)

/-- `clean_storage` (src/storage.rs lines 346-366): three passes, stopping at
the first propagated error. -/
def clean_storage (fuel : Nat) (storage : Storage) : Option GcOut :=
  match gcPass fuel storage with
  | none => none
  | some (.err s) => some (.err s)
  | some (.ok s1) =>
    match gcPass fuel s1 with
    | none => none
    | some (.err s) => some (.err s)
    | some (.ok s2) => gcPass fuel s2

/-! ### Liveness in the specification's sense -/

/-- The references of a manifest that parse as digests. -/
def parsedRefs (l : List DockerBlobRef) : List BlobRef :=
  l.filterMap (fun r => (BlobRef.from_str r.digest).toOption)

/-- The blob references a stored manifest contributes directly: an image
manifest contributes its config and layers, a manifest list its entries. -/
def directRefsOfContent : BlobContent → List BlobRef
  | .junk => []
  | .env e =>
    match e.get_manifest with
    | some man => parsedRefs (man.config :: man.layers)
    | none =>
      match e.get_manifests_list with
      | some ml => parsedRefs ml.manifests
      | none => []

/-- The references the traversal recurses into: only manifest-list entries. -/
def listEntriesOfContent : BlobContent → List BlobRef
  | .junk => []
  | .env e =>
    match e.get_manifest with
    | some _ => []
    | none =>
      match e.get_manifests_list with
      | some ml => parsedRefs ml.manifests
      | none => []

def directRefs (storage : Storage) (m : BlobRef) : List BlobRef :=
  match lookupBlob storage m with
  | none => []
  | some c => directRefsOfContent c

def listEntries (storage : Storage) (m : BlobRef) : List BlobRef :=
  match lookupBlob storage m with
  | none => []
  | some c => listEntriesOfContent c

/-- `b` is reachable from manifest `m`: `m` contributes `b` directly, or some
manifest-list entry of `m` reaches `b`.  A manifest whose blob file is missing
contributes nothing. -/
inductive ReachesBlob (storage : Storage) (b : BlobRef) : BlobRef → Prop
  | here {m : BlobRef} : b ∈ directRefs storage m → ReachesBlob storage b m
  | step {m c : BlobRef} : c ∈ listEntries storage m → ReachesBlob storage b c →
      ReachesBlob storage b m

/-- The spec's root set for one repository: every parsed revision link, plus
every parsed tag link that is not the empty-blob digest. -/
def specRoots (repo : RepoState) : List BlobRef :=
  (repo.revisions.filterMap (fun p => (BlobRef.from_str p.2).toOption)) ++
    ((repo.tags.filterMap (fun p => (BlobRef.from_str p.2).toOption)).filter
      (fun r => !r.is_empty_ref))

/-- `b` is live: some repository has a root equal to `b` or reaching `b`. -/
def Live (storage : Storage) (b : BlobRef) : Prop :=
  ∃ repo ∈ storage.repos, ∃ root ∈ specRoots repo,
    root = b ∨ ReachesBlob storage b root

/-- The reachability check returns (with any result) on the given manifest. -/
def DistTerminates (storage : Storage) (b m : BlobRef) : Prop :=
  ∃ fuel r, is_blob_useless_in_distribution_file fuel b m storage = some r

/-- `is_blob_useless` returns `Ok(false)` on the given blob. -/
def UselessCheckReturnsFalse (storage : Storage) (b : BlobRef) : Prop :=
  ∃ fuel, is_blob_useless fuel b storage = some (.ok false)

/-! ### A storage state whose manifest graph has a two-cycle -/

/-- A manifest-list entry with the given digest string. -/
def dref (s : String) : DockerBlobRef := ⟨"", s, none⟩

/-- A manifest-list envelope with the given entry digest strings. -/
def listEnv (ds : List String) : DockerManifestOrManifestList :=
  ⟨2, mtDockerManifestList, none, none, some (ds.map dref)⟩

def refA : BlobRef := ⟨"sha256", "aaa"⟩
def refB : BlobRef := ⟨"sha256", "bbb"⟩
def refC : BlobRef := ⟨"sha256", "ccc"⟩

/-- One repository whose single revision points at manifest list `aaa`; `aaa`
lists `bbb` (then `ccc`), and `bbb` lists `aaa` — a two-cycle, which the
Docker protocol forbids but nothing on disk prevents. -/
def cycStore : Storage :=
  { repos := [⟨"app", [("aaa", "sha256:aaa")], []⟩],
    blobs := [(refA, .env (listEnv ["sha256:bbb", "sha256:ccc"])),
              (refB, .env (listEnv ["sha256:aaa"]))] }

theorem scanManifestsList_cons_none {distCall : BlobRef → Option (Except Unit Bool)}
    {b u : BlobRef} {mref : DockerBlobRef} {rest : List DockerBlobRef}
    {child : BlobRef} (hp : BlobRef.from_docker_blob_ref mref = .ok child)
    (hb : ¬ child = b) (hu : ¬ child = u) (hd : distCall child = none) :
    scanManifestsList distCall b u (mref :: rest) = none := by
  simp only [scanManifestsList, hp, if_neg hb, if_neg hu, hd]

theorem cyc_dist_none (fuel : Nat) :
    is_blob_useless_in_distribution_file fuel refC refA cycStore = none ∧
      is_blob_useless_in_distribution_file fuel refC refB cycStore = none := by
  induction fuel with
  | zero => exact ⟨rfl, rfl⟩
  | succ n ih =>
    constructor
    · have step : is_blob_useless_in_distribution_file (n + 1) refC refA cycStore =
          scanManifestsList
            (fun m => is_blob_useless_in_distribution_file n refC m cycStore)
            refC refA [dref "sha256:bbb", dref "sha256:ccc"] := rfl
      rw [step]
      exact @scanManifestsList_cons_none _ _ _ _ _ refB rfl (by decide) (by decide)
        ih.2
    · have step : is_blob_useless_in_distribution_file (n + 1) refC refB cycStore =
          scanManifestsList
            (fun m => is_blob_useless_in_distribution_file n refC m cycStore)
            refC refB [dref "sha256:aaa"] := rfl
      rw [step]
      exact @scanManifestsList_cons_none _ _ _ _ _ refA rfl (by decide) (by decide)
        ih.1

/-- C2 — counterexample: the reachability check has no recursion depth bound
(only the self-loop skip), so on the two-cycle `aaa ↔ bbb` it does not return
for any recursion depth. -/
theorem c2_counterexample : ¬ DistTerminates cycStore refC refA := by
  rintro ⟨fuel, r, h⟩
  rw [(cyc_dist_none fuel).1] at h
  cases h

theorem scanManifestRoots_cons_none {fuel : Nat} {b : BlobRef} {storage : Storage}
    {m : BlobRef} {rest : List BlobRef} (hb : ¬ m = b)
    (hd : is_blob_useless_in_distribution_file fuel b m storage = none) :
    scanManifestRoots fuel b storage (m :: rest) = none := by
  simp only [scanManifestRoots, if_neg hb, hd]

theorem scanImages_cons_none {fuel : Nat} {b : BlobRef} {storage : Storage}
    {repo : RepoState} {rest : List RepoState} {l : List BlobRef}
    (hroots : manifest_blobs_of_repo repo = .ok l)
    (hscan : scanManifestRoots fuel b storage l = none) :
    scanImages fuel b storage (repo :: rest) = none := by
  simp only [scanImages, hroots, hscan]

theorem cyc_useless_none (fuel : Nat) :
    is_blob_useless fuel refC cycStore = none := by
  have h : is_blob_useless fuel refC cycStore =
      scanImages fuel refC cycStore cycStore.repos := rfl
  rw [h]
  exact scanImages_cons_none (l := [refA]) rfl
    (scanManifestRoots_cons_none (by decide) (cyc_dist_none fuel).1)

/-- C1 — counterexample: on the two-cycle store, `ccc` is live in the spec's
sense (it is an entry of the root manifest list `aaa`), yet `is_blob_useless`
does not return `Ok(false)` — it does not return at all, because the entry
`bbb` is scanned first and the recursion cycles between `aaa` and `bbb`. -/
theorem c1_counterexample :
    Live cycStore refC ∧ ¬ UselessCheckReturnsFalse cycStore refC := by
  constructor
  · refine ⟨⟨"app", [("aaa", "sha256:aaa")], []⟩, by simp [cycStore], refA, ?_,
      Or.inr (.here ?_)⟩
    · decide
    · decide
  · rintro ⟨fuel, h⟩
    rw [cyc_useless_none fuel] at h
    cases h

/-! ### C2 (amended): termination when non-self references admit a rank -/

theorem lookupBlob_mem {storage : Storage} {r : BlobRef} {c : BlobContent}
    (h : lookupBlob storage r = some c) : (r, c) ∈ storage.blobs := by
  unfold lookupBlob at h
  cases hf : storage.blobs.find? (fun p => p.1 = r) with
  | none => rw [hf] at h; cases h
  | some p =>
    rw [hf] at h
    cases h
    have hmem := List.mem_of_find?_eq_some hf
    have hpred : p.1 = r := by simpa using List.find?_some hf
    have : (r, p.2) = p := by
      rw [← hpred]
    rw [this]
    exact hmem

theorem scanManifestsList_ne_none {distCall : BlobRef → Option (Except Unit Bool)}
    {b u : BlobRef} :
    ∀ l : List DockerBlobRef,
      (∀ mref ∈ l, ∀ child : BlobRef, BlobRef.from_docker_blob_ref mref = .ok child →
        ¬ child = b → ¬ child = u → distCall child ≠ none) →
      scanManifestsList distCall b u l ≠ none
  | [], _ => by simp [scanManifestsList]
  | mref :: rest, h => by
    simp only [scanManifestsList]
    cases hp : BlobRef.from_docker_blob_ref mref with
    | error u2 => simp
    | ok child =>
      simp only []
      by_cases hb : child = b
      · simp [hb]
      · rw [if_neg hb]
        by_cases hu : child = u
        · rw [if_pos hu]
          exact scanManifestsList_ne_none rest (fun m hm => h m (.tail _ hm))
        · rw [if_neg hu]
          cases hd : distCall child with
          | none => exact absurd hd (h mref (.head _) child hp hb hu)
          | some r =>
            cases r with
            | error e => simp
            | ok bb =>
              cases bb with
              | false => simp
              | true =>
                exact scanManifestsList_ne_none rest (fun m hm => h m (.tail _ hm))

theorem dist_terminates_of_rank {storage : Storage} {b : BlobRef}
    {rank : BlobRef → Nat}
    (hrank : ∀ p ∈ storage.blobs, ∀ c ∈ listEntriesOfContent p.2,
      c ≠ p.1 → rank c < rank p.1) :
    ∀ fuel m, rank m < fuel →
      is_blob_useless_in_distribution_file fuel b m storage ≠ none := by
  intro fuel
  induction fuel with
  | zero => intro m hm; exact absurd hm (Nat.not_lt_zero _)
  | succ n ih =>
    intro m hm
    show is_blob_useless_in_distribution_file (n + 1) b m storage ≠ none
    simp only [is_blob_useless_in_distribution_file]
    cases hl : lookupBlob storage m with
    | none => simp
    | some c =>
      cases c with
      | junk => simp
      | env manifest =>
        simp only []
        cases hman : manifest.get_manifest with
        | some mm => simp
        | none =>
          simp only []
          cases hml : manifest.get_manifests_list with
          | none => simp
          | some ml =>
            simp only []
            apply scanManifestsList_ne_none
            intro mref hmref child hp hb hu
            have hmem : (m, BlobContent.env manifest) ∈ storage.blobs :=
              lookupBlob_mem hl
            have hchild : child ∈ listEntriesOfContent (BlobContent.env manifest) := by
              simp only [listEntriesOfContent, hman, hml]
              exact List.mem_filterMap.mpr ⟨mref, hmref, by
                unfold BlobRef.from_docker_blob_ref at hp
                rw [hp]; rfl⟩
            have hlt : rank child < rank m := hrank _ hmem child hchild hu
            exact ih child (by omega)

theorem scanManifestRoots_ne_none {fuel : Nat} {b : BlobRef} {storage : Storage} :
    ∀ l : List BlobRef,
      (∀ m ∈ l, ¬ m = b →
        is_blob_useless_in_distribution_file fuel b m storage ≠ none) →
      scanManifestRoots fuel b storage l ≠ none
  | [], _ => by simp [scanManifestRoots]
  | m :: rest, h => by
    simp only [scanManifestRoots]
    by_cases hb : m = b
    · simp [hb]
    · rw [if_neg hb]
      cases hd : is_blob_useless_in_distribution_file fuel b m storage with
      | none => exact absurd hd (h m (.head _) hb)
      | some r =>
        cases r with
        | error e => simp
        | ok bb =>
          cases bb with
          | false => simp
          | true => exact scanManifestRoots_ne_none rest (fun m2 hm => h m2 (.tail _ hm))

theorem scanImages_ne_none {fuel : Nat} {b : BlobRef} {storage : Storage} :
    ∀ repos : List RepoState,
      (∀ repo ∈ repos, ∀ l : List BlobRef, manifest_blobs_of_repo repo = .ok l →
        scanManifestRoots fuel b storage l ≠ none) →
      scanImages fuel b storage repos ≠ none
  | [], _ => by simp [scanImages]
  | repo :: rest, h => by
    simp only [scanImages]
    cases hr : manifest_blobs_of_repo repo with
    | error u => simp
    | ok l =>
      simp only []
      cases hscan : scanManifestRoots fuel b storage l with
      | none => exact absurd hscan (h repo (.head _) l hr)
      | some r =>
        cases r with
        | error e => simp
        | ok bb =>
          cases bb with
          | false => simp
          | true => exact scanImages_ne_none rest (fun r2 hm => h r2 (.tail _ hm))

theorem parseLinkList_ok : ∀ {xs : List (String × String)} {l : List BlobRef},
    parseLinkList xs = .ok l →
    l = xs.filterMap (fun p => (BlobRef.from_str p.2).toOption)
  | [], l, h => by cases h; rfl
  | x :: rest, l, h => by
    simp only [parseLinkList] at h
    cases hp : BlobRef.from_str x.2 with
    | error u => rw [hp] at h; cases h
    | ok r =>
      rw [hp] at h
      cases hrest : parseLinkList rest with
      | error u => rw [hrest] at h; cases h
      | ok l2 =>
        rw [hrest] at h
        cases h
        rw [List.filterMap_cons]
        simp [hp, Except.toOption, parseLinkList_ok hrest]

theorem collectTagRoots_ok : ∀ {ts : List (String × String)} {l : List BlobRef},
    collectTagRoots ts = .ok l →
    l = (ts.filterMap (fun p => (BlobRef.from_str p.2).toOption)).filter
      (fun r => !r.is_empty_ref)
  | [], l, h => by cases h; rfl
  | t :: rest, l, h => by
    simp only [collectTagRoots] at h
    cases hp : BlobRef.from_str t.2 with
    | error u => rw [hp] at h; cases h
    | ok r =>
      rw [hp] at h
      cases hrest : collectTagRoots rest with
      | error u => rw [hrest] at h; cases h
      | ok l2 =>
        rw [hrest] at h
        cases h
        rw [List.filterMap_cons]
        simp only [hp, Except.toOption]
        rw [List.filter_cons]
        by_cases he : r.is_empty_ref
        · simp [he, collectTagRoots_ok hrest, Except.toOption]
        · simp [he, collectTagRoots_ok hrest, Except.toOption]

theorem manifest_blobs_of_repo_ok {repo : RepoState} {l : List BlobRef}
    (h : manifest_blobs_of_repo repo = .ok l) : l = specRoots repo := by
  unfold manifest_blobs_of_repo at h
  cases hrev : parseLinkList repo.revisions with
  | error u => rw [hrev] at h; cases h
  | ok revs =>
    rw [hrev] at h
    cases htag : collectTagRoots repo.tags with
    | error u => rw [htag] at h; cases h
    | ok tagRoots =>
      rw [htag] at h
      cases h
      unfold specRoots
      rw [← parseLinkList_ok hrev, ← collectTagRoots_ok htag]

/-- C2 (amended): the reachability check has no recursion depth bound and a
child equal to the current manifest is skipped; therefore the check returns
whenever the non-self manifest-list references admit a strictly decreasing
rank — i.e. the stored manifest graph has no cycles other than self-loops —
and the fuel exceeds the rank of every root.  (On a two-cycle it does not
return; see the counterexample.) -/
theorem c2_amended (storage : Storage) (b : BlobRef) (rank : BlobRef → Nat)
    (fuel : Nat)
    (hrank : ∀ p ∈ storage.blobs, ∀ c ∈ listEntriesOfContent p.2,
      c ≠ p.1 → rank c < rank p.1)
    (hroots : ∀ repo ∈ storage.repos, ∀ root ∈ specRoots repo, rank root < fuel) :
    ∃ r, is_blob_useless fuel b storage = some r := by
  have hne : is_blob_useless fuel b storage ≠ none := by
    show scanImages fuel b storage storage.repos ≠ none
    apply scanImages_ne_none
    intro repo hrepo l hl
    apply scanManifestRoots_ne_none
    intro m hm _
    apply dist_terminates_of_rank hrank
    exact hroots repo hrepo m (manifest_blobs_of_repo_ok hl ▸ hm)
  cases h : is_blob_useless fuel b storage with
  | none => exact absurd h hne
  | some r => exact ⟨r, rfl⟩

def refD : BlobRef := ⟨"sha256", "ddd"⟩
def refE : BlobRef := ⟨"sha256", "eee"⟩

/-- A storage whose only cycle is the self-loop of `ddd`. -/
def c2wStore : Storage :=
  { repos := [⟨"app", [("ddd", "sha256:ddd")], []⟩],
    blobs := [(refD, .env (listEnv ["sha256:ddd", "sha256:eee"])),
              (refE, .env ⟨2, mtDockerManifest, some (dref "sha256:fff"),
                some [], none⟩)] }

def c2rank (r : BlobRef) : Nat := if r = refD then 1 else 0

/-- C2 witness: on a concrete store whose only cycle is a self-loop, the check
returns. -/
theorem c2_witness : ∃ r, is_blob_useless 2 refC c2wStore = some r :=
  c2_amended c2wStore refC c2rank 2 (by decide) (by decide)

/-! ### C3: the empty blob is never deleted -/

def emptyRef : BlobRef := ⟨"sha256", emptyBlobHash⟩

/-- The blob data file for `b` exists in the store. -/
def hasBlob (storage : Storage) (b : BlobRef) : Prop :=
  ∃ p ∈ storage.blobs, p.1 = b

theorem sweepBlobs_preserves_empty : ∀ {l : List BlobRef} {fuel : Nat}
    {storage : Storage} {out : GcOut},
    sweepBlobs fuel storage l = some out → hasBlob storage emptyRef →
    hasBlob out.state emptyRef
  | [], fuel, storage, out, h, hex => by
    cases h
    exact hex
  | blob :: rest, fuel, storage, out, h, hex => by
    simp only [sweepBlobs] at h
    by_cases he : blob.is_empty_ref
    · rw [if_pos he] at h
      exact sweepBlobs_preserves_empty h hex
    · rw [if_neg he] at h
      cases hu : is_blob_useless fuel blob storage with
      | none => rw [hu] at h; cases h
      | some r =>
        rw [hu] at h
        cases r with
        | error e =>
          cases h
          exact hex
        | ok bb =>
          cases bb with
          | false => exact sweepBlobs_preserves_empty h hex
          | true =>
            apply sweepBlobs_preserves_empty h
            obtain ⟨p, hp, hp1⟩ := hex
            have hne : blob ≠ emptyRef := by
              intro e
              apply he
              rw [e]
              rfl
            refine ⟨p, ?_, hp1⟩
            simp only [removeBlobDir]
            refine List.mem_filter.mpr ⟨hp, ?_⟩
            simp only [hp1]
            simpa using fun e => hne e.symm

/-- C3: for every fuel and storage state, whenever `clean_storage` returns
(with `Ok` or a propagated `Err`), the well-known empty-blob digest is never
deleted — if its data file existed before the run it still exists after.
The empty blob is skipped before any liveness check on every pass. -/
theorem c3_empty_blob_preserved (fuel : Nat) (storage : Storage) (out : GcOut)
    (h : clean_storage fuel storage = some out)
    (hex : hasBlob storage emptyRef) : hasBlob out.state emptyRef := by
  unfold clean_storage at h
  cases h1 : gcPass fuel storage with
  | none => rw [h1] at h; cases h
  | some o1 =>
    rw [h1] at h
    cases o1 with
    | err s =>
      cases h
      exact sweepBlobs_preserves_empty h1 hex
    | ok s1 =>
      have hs1 : hasBlob s1 emptyRef := sweepBlobs_preserves_empty h1 hex
      simp only [] at h
      cases h2 : gcPass fuel s1 with
      | none => rw [h2] at h; cases h
      | some o2 =>
        rw [h2] at h
        cases o2 with
        | err s =>
          cases h
          exact sweepBlobs_preserves_empty h2 hs1
        | ok s2 =>
          have hs2 : hasBlob s2 emptyRef := sweepBlobs_preserves_empty h2 hs1
          exact sweepBlobs_preserves_empty h hs2

/-- A store holding just the empty blob. -/
def c3wStore : Storage := { repos := [], blobs := [(emptyRef, .junk)] }

/-- C3 witness: a GC run over a concrete store containing the empty blob. -/
theorem c3_witness : hasBlob (GcOut.ok c3wStore).state emptyRef :=
  c3_empty_blob_preserved 3 c3wStore (GcOut.ok c3wStore) rfl
    ⟨(emptyRef, .junk), List.mem_cons_self _ _, rfl⟩

/-! ### C1 (amended): the mark phase agrees with spec liveness whenever it
returns an `Ok` result -/

theorem exceptToOption_eq_some {e : Except Unit BlobRef} {b : BlobRef} :
    e.toOption = some b ↔ e = .ok b := by
  cases e <;> simp [Except.toOption]

theorem mem_parsedRefs {b : BlobRef} {l : List DockerBlobRef} :
    b ∈ parsedRefs l ↔ ∃ x ∈ l, BlobRef.from_str x.digest = .ok b := by
  unfold parsedRefs
  rw [List.mem_filterMap]
  constructor
  · rintro ⟨x, hx, ho⟩
    exact ⟨x, hx, exceptToOption_eq_some.mp ho⟩
  · rintro ⟨x, hx, ho⟩
    exact ⟨x, hx, exceptToOption_eq_some.mpr ho⟩

theorem checkLayers_false {b : BlobRef} : ∀ {layers : List DockerBlobRef},
    checkLayers b layers = .ok false → b ∈ parsedRefs layers
  | layer :: rest, h => by
    simp only [checkLayers] at h
    cases hp : BlobRef.from_docker_blob_ref layer with
    | error u => rw [hp] at h; cases h
    | ok r =>
      rw [hp] at h
      simp only [] at h
      by_cases hb : r = b
      · exact mem_parsedRefs.mpr ⟨layer, .head _, hb ▸ hp⟩
      · rw [if_neg hb] at h
        exact List.mem_filterMap.mpr
          (let ⟨x, hx, ho⟩ := List.mem_filterMap.mp (checkLayers_false h)
           ⟨x, .tail _ hx, ho⟩)

theorem checkLayers_true_not_mem {b : BlobRef} : ∀ {layers : List DockerBlobRef},
    b ∈ parsedRefs layers → checkLayers b layers ≠ .ok true
  | layer :: rest, hmem => by
    simp only [checkLayers]
    cases hp : BlobRef.from_docker_blob_ref layer with
    | error u => intro h; cases h
    | ok r =>
      simp only []
      by_cases hb : r = b
      · rw [if_pos hb]
        intro h; cases h
      · rw [if_neg hb]
        apply checkLayers_true_not_mem
        obtain ⟨x, hx, ho⟩ := mem_parsedRefs.mp hmem
        rcases List.mem_cons.mp hx with rfl | hx2
        · refine absurd ?_ hb
          have hp2 : BlobRef.from_str x.digest = Except.ok r := hp
          rw [hp2] at ho
          cases ho
          rfl
        · exact mem_parsedRefs.mpr ⟨x, hx2, ho⟩

theorem manifest_false_mem {b : BlobRef} {m : DockerManifest}
    (h : is_blob_useless_in_docker_manifest b m = .ok false) :
    b ∈ parsedRefs (m.config :: m.layers) := by
  unfold is_blob_useless_in_docker_manifest at h
  cases hp : BlobRef.from_docker_blob_ref m.config with
  | error u => rw [hp] at h; cases h
  | ok c =>
    rw [hp] at h
    simp only [] at h
    by_cases hb : c = b
    · exact mem_parsedRefs.mpr ⟨m.config, .head _, hb ▸ hp⟩
    · rw [if_neg hb] at h
      obtain ⟨x, hx, ho⟩ := mem_parsedRefs.mp (checkLayers_false h)
      exact mem_parsedRefs.mpr ⟨x, .tail _ hx, ho⟩

theorem manifest_mem_not_true {b : BlobRef} {m : DockerManifest}
    (hmem : b ∈ parsedRefs (m.config :: m.layers)) :
    is_blob_useless_in_docker_manifest b m ≠ .ok true := by
  unfold is_blob_useless_in_docker_manifest
  cases hp : BlobRef.from_docker_blob_ref m.config with
  | error u => intro h; cases h
  | ok c =>
    simp only []
    by_cases hb : c = b
    · rw [if_pos hb]
      intro h; cases h
    · rw [if_neg hb]
      apply checkLayers_true_not_mem
      obtain ⟨x, hx, ho⟩ := mem_parsedRefs.mp hmem
      rcases List.mem_cons.mp hx with rfl | hx2
      · refine absurd ?_ hb
        have hp2 : BlobRef.from_str m.config.digest = Except.ok c := hp
        rw [hp2] at ho
        cases ho
        rfl
      · exact mem_parsedRefs.mpr ⟨x, hx2, ho⟩

theorem scan_false_exists {storage : Storage} {b u : BlobRef}
    {distCall : BlobRef → Option (Except Unit Bool)}
    (hP : ∀ c, distCall c = some (.ok false) → ReachesBlob storage b c) :
    ∀ {l : List DockerBlobRef},
      scanManifestsList distCall b u l = some (.ok false) →
      ∃ child ∈ parsedRefs l, child = b ∨ ReachesBlob storage b child
  | mref :: rest, h => by
    simp only [scanManifestsList] at h
    cases hp : BlobRef.from_docker_blob_ref mref with
    | error u2 => rw [hp] at h; simp at h
    | ok child =>
      rw [hp] at h
      simp only [] at h
      by_cases hb : child = b
      · exact ⟨child, mem_parsedRefs.mpr ⟨mref, .head _, hp⟩, Or.inl hb⟩
      · rw [if_neg hb] at h
        by_cases hu : child = u
        · rw [if_pos hu] at h
          obtain ⟨c, hc, hcase⟩ := scan_false_exists hP h
          obtain ⟨x, hx, ho⟩ := mem_parsedRefs.mp hc
          exact ⟨c, mem_parsedRefs.mpr ⟨x, .tail _ hx, ho⟩, hcase⟩
        · rw [if_neg hu] at h
          cases hd : distCall child with
          | none => rw [hd] at h; cases h
          | some rr =>
            rw [hd] at h
            cases rr with
            | error e => simp at h
            | ok bb =>
              cases bb with
              | true =>
                obtain ⟨c, hc, hcase⟩ := scan_false_exists hP h
                obtain ⟨x, hx, ho⟩ := mem_parsedRefs.mp hc
                exact ⟨c, mem_parsedRefs.mpr ⟨x, .tail _ hx, ho⟩, hcase⟩
              | false =>
                exact ⟨child, mem_parsedRefs.mpr ⟨mref, .head _, hp⟩,
                  Or.inr (hP child hd)⟩

theorem scan_true_all {b u : BlobRef}
    {distCall : BlobRef → Option (Except Unit Bool)} :
    ∀ {l : List DockerBlobRef},
      scanManifestsList distCall b u l = some (.ok true) →
      ∀ c ∈ parsedRefs l, ¬ c = b ∧ (c = u ∨ distCall c = some (.ok true))
  | [], _, c, hc => by simp [parsedRefs] at hc
  | mref :: rest, h, c, hc => by
    simp only [scanManifestsList] at h
    cases hp : BlobRef.from_docker_blob_ref mref with
    | error u2 => rw [hp] at h; simp at h
    | ok child =>
      rw [hp] at h
      simp only [] at h
      by_cases hb : child = b
      · rw [if_pos hb] at h; simp at h
      · rw [if_neg hb] at h
        obtain ⟨x, hx, ho⟩ := mem_parsedRefs.mp hc
        have hcsplit : (x = mref ∧ c = child) ∨ x ∈ rest := by
          rcases List.mem_cons.mp hx with rfl | hx2
          · refine Or.inl ⟨rfl, ?_⟩
            have hp2 : BlobRef.from_str x.digest = Except.ok child := hp
            rw [hp2] at ho
            cases ho
            rfl
          · exact Or.inr hx2
        by_cases hu : child = u
        · rw [if_pos hu] at h
          rcases hcsplit with ⟨rfl, rfl⟩ | hx2
          · exact ⟨hb, Or.inl hu⟩
          · exact scan_true_all h c (mem_parsedRefs.mpr ⟨x, hx2, ho⟩)
        · rw [if_neg hu] at h
          cases hd : distCall child with
          | none => rw [hd] at h; cases h
          | some rr =>
            rw [hd] at h
            cases rr with
            | error e => simp at h
            | ok bb =>
              cases bb with
              | false => simp at h
              | true =>
                rcases hcsplit with ⟨rfl, rfl⟩ | hx2
                · exact ⟨hb, Or.inr hd⟩
                · exact scan_true_all h c (mem_parsedRefs.mpr ⟨x, hx2, ho⟩)

theorem dist_false_reaches {storage : Storage} {b : BlobRef} :
    ∀ (n : Nat) (m : BlobRef),
      is_blob_useless_in_distribution_file n b m storage = some (.ok false) →
      ReachesBlob storage b m := by
  intro n
  induction n with
  | zero =>
    intro m h
    simp [is_blob_useless_in_distribution_file] at h
  | succ n ih =>
    intro m h
    simp only [is_blob_useless_in_distribution_file] at h
    cases hl : lookupBlob storage m with
    | none => rw [hl] at h; simp at h
    | some c =>
      rw [hl] at h
      cases c with
      | junk => simp at h
      | env manifest =>
        simp only [] at h
        cases hman : manifest.get_manifest with
        | some mm =>
          rw [hman] at h
          simp only [] at h
          have hm2 : is_blob_useless_in_docker_manifest b mm = .ok false :=
            Option.some.inj h
          apply ReachesBlob.here
          simp only [directRefs, hl, directRefsOfContent, hman]
          exact manifest_false_mem hm2
        | none =>
          rw [hman] at h
          simp only [] at h
          cases hml : manifest.get_manifests_list with
          | none => rw [hml] at h; simp at h
          | some ml =>
            rw [hml] at h
            simp only [] at h
            obtain ⟨child, hchild, hcase⟩ :=
              scan_false_exists (fun c hc => ih c hc) h
            rcases hcase with rfl | hreach
            · apply ReachesBlob.here
              simp only [directRefs, hl, directRefsOfContent, hman, hml]
              exact hchild
            · refine ReachesBlob.step ?_ hreach
              simp only [listEntries, hl, listEntriesOfContent, hman, hml]
              exact hchild

theorem reaches_dist_not_true {storage : Storage} {b m : BlobRef}
    (hr : ReachesBlob storage b m) :
    ∀ fuel, is_blob_useless_in_distribution_file fuel b m storage ≠
      some (.ok true) := by
  induction hr with
  | @here m2 hmem =>
    intro fuel h
    cases fuel with
    | zero => simp [is_blob_useless_in_distribution_file] at h
    | succ n =>
      simp only [is_blob_useless_in_distribution_file] at h
      cases hl : lookupBlob storage m2 with
      | none => simp [directRefs, hl] at hmem
      | some c =>
        rw [hl] at h
        cases c with
        | junk => simp at h
        | env manifest =>
          simp only [] at h
          cases hman : manifest.get_manifest with
          | some mm =>
            rw [hman] at h
            simp only [] at h
            have hm2 : is_blob_useless_in_docker_manifest b mm = .ok true :=
              Option.some.inj h
            refine manifest_mem_not_true ?_ hm2
            simpa only [directRefs, hl, directRefsOfContent, hman] using hmem
          | none =>
            rw [hman] at h
            simp only [] at h
            cases hml : manifest.get_manifests_list with
            | none => simp [directRefs, hl, directRefsOfContent, hman, hml] at hmem
            | some ml =>
              rw [hml] at h
              simp only [] at h
              have hmem2 : b ∈ parsedRefs ml.manifests := by
                simpa only [directRefs, hl, directRefsOfContent, hman, hml]
                  using hmem
              exact (scan_true_all h b hmem2).1 rfl
  | @step m2 c2 hstep hsub ih =>
    intro fuel h
    cases fuel with
    | zero => simp [is_blob_useless_in_distribution_file] at h
    | succ n =>
      have h0 := h
      simp only [is_blob_useless_in_distribution_file] at h
      cases hl : lookupBlob storage m2 with
      | none => simp [listEntries, hl] at hstep
      | some c =>
        rw [hl] at h
        cases c with
        | junk => simp at h
        | env manifest =>
          simp only [] at h
          cases hman : manifest.get_manifest with
          | some mm =>
            simp [listEntries, hl, listEntriesOfContent, hman] at hstep
          | none =>
            rw [hman] at h
            simp only [] at h
            cases hml : manifest.get_manifests_list with
            | none =>
              simp [listEntries, hl, listEntriesOfContent, hman, hml] at hstep
            | some ml =>
              rw [hml] at h
              simp only [] at h
              have hstep2 : c2 ∈ parsedRefs ml.manifests := by
                simpa only [listEntries, hl, listEntriesOfContent, hman, hml]
                  using hstep
              obtain ⟨hneb, hcase⟩ := scan_true_all h c2 hstep2
              rcases hcase with heq | hdist
              · exact ih (n + 1) (by rw [heq]; exact h0)
              · exact ih n hdist

theorem scanManifestRoots_false {fuel : Nat} {b : BlobRef} {storage : Storage} :
    ∀ {l : List BlobRef}, scanManifestRoots fuel b storage l = some (.ok false) →
      ∃ m ∈ l, m = b ∨
        is_blob_useless_in_distribution_file fuel b m storage = some (.ok false)
  | [], h => by simp [scanManifestRoots] at h
  | m :: rest, h => by
    simp only [scanManifestRoots] at h
    by_cases hb : m = b
    · exact ⟨m, .head _, Or.inl hb⟩
    · rw [if_neg hb] at h
      cases hd : is_blob_useless_in_distribution_file fuel b m storage with
      | none => rw [hd] at h; cases h
      | some r =>
        rw [hd] at h
        cases r with
        | error e => simp at h
        | ok bb =>
          cases bb with
          | false => exact ⟨m, .head _, Or.inr hd⟩
          | true =>
            obtain ⟨m2, hm2, hc⟩ := scanManifestRoots_false h
            exact ⟨m2, .tail _ hm2, hc⟩

theorem scanManifestRoots_true {fuel : Nat} {b : BlobRef} {storage : Storage} :
    ∀ {l : List BlobRef}, scanManifestRoots fuel b storage l = some (.ok true) →
      ∀ m ∈ l, ¬ m = b ∧
        is_blob_useless_in_distribution_file fuel b m storage = some (.ok true)
  | [], _, m, hm => by simp at hm
  | m :: rest, h, m2, hm2 => by
    simp only [scanManifestRoots] at h
    by_cases hb : m = b
    · rw [if_pos hb] at h; simp at h
    · rw [if_neg hb] at h
      cases hd : is_blob_useless_in_distribution_file fuel b m storage with
      | none => rw [hd] at h; cases h
      | some r =>
        rw [hd] at h
        cases r with
        | error e => simp at h
        | ok bb =>
          cases bb with
          | false => simp at h
          | true =>
            rcases List.mem_cons.mp hm2 with rfl | hm3
            · exact ⟨hb, hd⟩
            · exact scanManifestRoots_true h m2 hm3

theorem scanImages_false {fuel : Nat} {b : BlobRef} {storage : Storage} :
    ∀ {repos : List RepoState},
      scanImages fuel b storage repos = some (.ok false) →
      ∃ repo ∈ repos, ∃ l : List BlobRef, manifest_blobs_of_repo repo = .ok l ∧
        scanManifestRoots fuel b storage l = some (.ok false)
  | [], h => by simp [scanImages] at h
  | repo :: rest, h => by
    simp only [scanImages] at h
    cases hr : manifest_blobs_of_repo repo with
    | error u => rw [hr] at h; simp at h
    | ok l =>
      rw [hr] at h
      simp only [] at h
      cases hscan : scanManifestRoots fuel b storage l with
      | none => rw [hscan] at h; cases h
      | some r =>
        rw [hscan] at h
        cases r with
        | error e => simp at h
        | ok bb =>
          cases bb with
          | false => exact ⟨repo, .head _, l, hr, hscan⟩
          | true =>
            obtain ⟨repo2, hrepo2, l2, hl2, hscan2⟩ := scanImages_false h
            exact ⟨repo2, .tail _ hrepo2, l2, hl2, hscan2⟩

theorem scanImages_true {fuel : Nat} {b : BlobRef} {storage : Storage} :
    ∀ {repos : List RepoState},
      scanImages fuel b storage repos = some (.ok true) →
      ∀ repo ∈ repos, ∃ l : List BlobRef, manifest_blobs_of_repo repo = .ok l ∧
        scanManifestRoots fuel b storage l = some (.ok true)
  | [], _, repo, hrepo => by simp at hrepo
  | repo :: rest, h, repo2, hrepo2 => by
    simp only [scanImages] at h
    cases hr : manifest_blobs_of_repo repo with
    | error u => rw [hr] at h; simp at h
    | ok l =>
      rw [hr] at h
      simp only [] at h
      cases hscan : scanManifestRoots fuel b storage l with
      | none => rw [hscan] at h; cases h
      | some r =>
        rw [hscan] at h
        cases r with
        | error e => simp at h
        | ok bb =>
          cases bb with
          | false => simp at h
          | true =>
            rcases List.mem_cons.mp hrepo2 with rfl | hrepo3
            · exact ⟨l, hr, hscan⟩
            · exact scanImages_true h repo2 hrepo3

/-- C1 (amended): whenever `is_blob_useless` returns an `Ok` result (it can
instead fail to return on cyclic manifest graphs, or return an `Err` on
unparseable link files or manifests), the result is `Ok(false)` iff the blob
is live in the spec's sense: it is a parsed manifest revision of some
repository, or the parsed target of some tag link other than the empty-blob
digest, or transitively reachable from such a root through the manifest
graph, where an image manifest contributes its parsed config and layer
digests, a manifest list contributes its parsed entries and recurses into
them, and a missing blob file contributes nothing. -/
theorem c1_amended (fuel : Nat) (storage : Storage) (b : BlobRef) (r : Bool)
    (h : is_blob_useless fuel b storage = some (.ok r)) :
    r = false ↔ Live storage b := by
  constructor
  · intro hr
    subst hr
    obtain ⟨repo, hrepo, l, hl, hscan⟩ := scanImages_false h
    obtain ⟨m, hm, hcase⟩ := scanManifestRoots_false hscan
    refine ⟨repo, hrepo, m, manifest_blobs_of_repo_ok hl ▸ hm, ?_⟩
    rcases hcase with hmb | hdist
    · exact Or.inl hmb
    · exact Or.inr (dist_false_reaches fuel m hdist)
  · intro hlive
    cases r with
    | false => rfl
    | true =>
      exfalso
      obtain ⟨repo, hrepo, root, hroot, hcase⟩ := hlive
      obtain ⟨l, hl, hscan⟩ := scanImages_true h repo hrepo
      have hroot2 : root ∈ l := by
        rw [manifest_blobs_of_repo_ok hl]
        exact hroot
      obtain ⟨hne, hdist⟩ := scanManifestRoots_true hscan root hroot2
      rcases hcase with heq | hreach
      · exact hne heq
      · exact reaches_dist_not_true hreach fuel hdist

/-- C1 witness: on a concrete store whose revision root is the queried blob,
the check returns `Ok(false)` and the blob is live. -/
theorem c1_witness : false = false ↔ Live c2wStore refD :=
  c1_amended 2 c2wStore refD false rfl

/-! ### C4: upload finalization with a digest mismatch (src/server.rs
`blob_upload_finish`, lines 576-613) -/

/-- The state touched by the upload endpoints of one repository: session
files under `_uploads` keyed by uuid, and blob data files keyed by
reference; file contents are byte lists. -/
structure UploadStore where
  uploads : List (String × List Nat)
  blobs : List (BlobRef × List Nat)
deriving DecidableEq, Repr

def lookupUpload (st : UploadStore) (uuid : String) : Option (List Nat) :=
  (st.uploads.find? (fun p => p.1 = uuid)).map (fun p => p.2)

/-- Appending the request body to the session file (`process_blob_upload`). -/
def setUpload (st : UploadStore) (uuid : String) (content : List Nat) :
    UploadStore :=
  { st with uploads :=
      (st.uploads.map (fun p => if p.1 = uuid then (uuid, content) else p)) }

def removeUpload (st : UploadStore) (uuid : String) : UploadStore :=
  { st with uploads := st.uploads.filter (fun p => ¬ p.1 = uuid) }

/-- `std::fs::rename` of the finished upload onto the blob data path. -/
def insertBlob (st : UploadStore) (r : BlobRef) (content : List Nat) :
    UploadStore :=
  { st with blobs := (r, content) :: st.blobs.filter (fun p => ¬ p.1 = r) }

inductive UploadFinishResp where
  | blobUnknown404
  | digestInvalid400
  | internalErr500
  | created201 (digest : String)
deriving DecidableEq, Repr

/-- `blob_upload_finish`: append the body, hash the whole session file with
the external `sha256sum` tool (modelled by the `hash` parameter), compare the
formatted digest against the `digest` query parameter, and only on equality
move the file to the blob store. -/
def blob_upload_finish (hash : List Nat → String) (st : UploadStore)
    (uuid : String) (payload : List Nat) (digest : String) :
    UploadStore × UploadFinishResp :=
  match lookupUpload st uuid with
  | none => (st, .blobUnknown404)
  | some pre =>
    let content := pre ++ payload
    let st1 := setUpload st uuid content
    let computed_digest := "sha256:" ++ hash content
    if ¬ computed_digest = digest then (st1, .digestInvalid400)
    else
      match BlobRef.from_str digest with
      | .error _ => (st1, .internalErr500)
      | .ok dest => (insertBlob (removeUpload st1 uuid) dest content,
          .created201 digest)

theorem lookupUpload_setUpload : ∀ {l : List (String × List Nat)}
    {uuid : String} {q : String × List Nat} {c : List Nat},
    (l.find? (fun p => p.1 = uuid)) = some q →
    ((l.map (fun p => if p.1 = uuid then (uuid, c) else p)).find?
      (fun p => p.1 = uuid)) = some (uuid, c)
  | [], uuid, q, c, h => by simp at h
  | p :: rest, uuid, q, c, h => by
    by_cases hp : p.1 = uuid
    · simp only [List.map_cons, if_pos hp]
      exact List.find?_cons_of_pos _ (by simp)
    · simp only [List.map_cons, if_neg hp]
      rw [List.find?_cons_of_neg _ (by simpa using hp)] at h
      rw [List.find?_cons_of_neg _ (by simpa using hp)]
      exact lookupUpload_setUpload h

/-- C4: for every open upload session, when the finalizing PUT's digest query
parameter differs from `sha256:` + the digest computed over the whole upload
file (prior bytes plus the PUT body), the endpoint responds 400
`DIGEST_INVALID`, the session file remains at its `_uploads` path holding the
appended body, and the blob store is unchanged — no blob data file is created
for either digest. -/
theorem c4_digest_mismatch (hash : List Nat → String) (st : UploadStore)
    (uuid : String) (payload : List Nat) (digest : String) (pre : List Nat)
    (hopen : lookupUpload st uuid = some pre)
    (hmismatch : ¬ ("sha256:" ++ hash (pre ++ payload)) = digest) :
    (blob_upload_finish hash st uuid payload digest).2 = .digestInvalid400 ∧
    lookupUpload (blob_upload_finish hash st uuid payload digest).1 uuid =
      some (pre ++ payload) ∧
    (blob_upload_finish hash st uuid payload digest).1.blobs = st.blobs := by
  unfold blob_upload_finish
  rw [hopen]
  simp only []
  rw [if_pos hmismatch]
  refine ⟨rfl, ?_, rfl⟩
  show lookupUpload (setUpload st uuid (pre ++ payload)) uuid =
    some (pre ++ payload)
  unfold lookupUpload setUpload
  simp only []
  cases hf : st.uploads.find? (fun p => p.1 = uuid) with
  | none =>
    unfold lookupUpload at hopen
    rw [hf] at hopen
    cases hopen
  | some p =>
    rw [lookupUpload_setUpload hf]
    rfl

/-- C4 witness: a concrete session with a mismatching digest parameter. -/
theorem c4_witness :
    (blob_upload_finish (fun _ => "hhh") ⟨[("u", [1])], []⟩ "u" [2]
      "sha256:zzz").2 = .digestInvalid400 ∧
    lookupUpload (blob_upload_finish (fun _ => "hhh") ⟨[("u", [1])], []⟩ "u" [2]
      "sha256:zzz").1 "u" = some ([1] ++ [2]) ∧
    (blob_upload_finish (fun _ => "hhh") ⟨[("u", [1])], []⟩ "u" [2]
      "sha256:zzz").1.blobs = (⟨[("u", [1])], []⟩ : UploadStore).blobs :=
  c4_digest_mismatch (fun _ => "hhh") ⟨[("u", [1])], []⟩ "u" [2] "sha256:zzz"
    [1] rfl (by decide)

/-! ### C9: manifest PUT ignores a digest-shaped reference (src/server.rs
`put_manifest`, lines 370-422) -/

inductive GetManifestResp where
  | internalErr500
  | manifestUnknown404
  | manifestBlobUnknown404
  | blobUnknown404
  | served (docker_content_digest : String) (content_type : String)
deriving DecidableEq, Repr

/-- Reading `_manifests/tags/<t>/current/link`: `none` when absent. -/
def lookupTagLink (image : RepoState) (t : String) : Option String :=
  (image.tags.find? (fun p => p.1 = t)).map (fun p => p.2)

/-- `serve_blob` (src/server.rs lines 305-330): 404 `BLOB_UNKNOWN` when the
data file is missing, otherwise the blob bytes with `Docker-Content-Digest`
and the given content type. -/
def serve_blob (storage : Storage) (blob_ref : BlobRef) (content_type : String) :
    GetManifestResp :=
  match lookupBlob storage blob_ref with
  | none => .blobUnknown404
  | some _ => .served blob_ref.to_digest content_type

/-- The digest resolution of `get_manifest`: a reference STARTING WITH the
literal "sha256" is parsed as a digest (a parse failure propagates as an
internal error); any other reference is resolved through its tag link file
(absent link: 404 `MANIFEST_UNKNOWN`; unparseable link: internal error). -/
def resolve_manifest_ref (image : RepoState) (image_ref : String) :
    Except GetManifestResp BlobRef :=
  if image_ref.startsWith "sha256" then
    match BlobRef.from_str image_ref with
    | .error _ => .error .internalErr500
    | .ok r => .ok r
  else
    match lookupTagLink image image_ref with
    | none => .error .manifestUnknown404
    | some content =>
      match BlobRef.from_str content with
      | .error _ => .error .internalErr500
      | .ok r => .ok r

/-- The tail of `get_manifest` after resolution: check the revision list,
read and parse the manifest blob for its `mediaType`, and serve it. -/
def get_manifest_resolved (storage : Storage) (image : RepoState)
    (blob_ref : BlobRef) : GetManifestResp :=
  match parseLinkList image.revisions with
  | .error _ => .internalErr500
  | .ok revs =>
    if ¬ blob_ref ∈ revs then .manifestBlobUnknown404
    else
      match lookupBlob storage blob_ref with
      | none => .internalErr500
      | some .junk => .internalErr500
      | some (.env manifest) => serve_blob storage blob_ref manifest.mediaType

/-- `get_manifest` (src/server.rs lines 332-368). -/
def get_manifest (storage : Storage) (image : RepoState) (image_ref : String) :
    GetManifestResp :=
  match resolve_manifest_ref image image_ref with
  | .error resp => resp
  | .ok blob_ref => get_manifest_resolved storage image blob_ref

/-- The resolution rule as claimed by C5: a reference that PARSES as a digest
is used directly; the rest of the flow as in the code. -/
def c5ClaimSpec (storage : Storage) (image : RepoState) (image_ref : String) :
    GetManifestResp :=
  if BlobRef.is_valid_reference image_ref then
    match BlobRef.from_str image_ref with
    | .error _ => .internalErr500
    | .ok r => get_manifest_resolved storage image r
  else
    match lookupTagLink image image_ref with
    | none => .manifestUnknown404
    | some content =>
      match BlobRef.from_str content with
      | .error _ => .internalErr500
      | .ok r => get_manifest_resolved storage image r

def refAbc : BlobRef := ⟨"sha256", "abc"⟩

/-- A repository holding the tag "a:bcd" — a tag name that parses as a digest
but does not start with "sha256" — pointing at revision `sha256:abc`. -/
def c5Repo : RepoState :=
  ⟨"app", [("abc", "sha256:abc")], [("a:bcd", "sha256:abc")]⟩

def c5Store : Storage :=
  { repos := [c5Repo], blobs := [(refAbc, .env (listEnv []))] }

/-- C5 — counterexample: the code keys the digest path on
`starts_with("sha256")`, not on "parses as a digest".  For the tag "a:bcd"
(which parses as the digest `a:bcd`) the code resolves the tag link and
serves the manifest, while the claimed behaviour would use `a:bcd` as a
revision digest and answer `MANIFEST_BLOB_UNKNOWN`. -/
theorem c5_counterexample :
    get_manifest c5Store c5Repo "a:bcd" =
      .served "sha256:abc" mtDockerManifestList ∧
    c5ClaimSpec c5Store c5Repo "a:bcd" = .manifestBlobUnknown404 := by
  constructor <;> rfl

theorem resolve_sha {image : RepoState} {image_ref : String} {r : BlobRef}
    (hsw : image_ref.startsWith "sha256" = true)
    (hparse : BlobRef.from_str image_ref = .ok r) :
    resolve_manifest_ref image image_ref = .ok r := by
  unfold resolve_manifest_ref
  rw [if_pos hsw, hparse]

theorem resolve_tag_none {image : RepoState} {image_ref : String}
    (hsw : image_ref.startsWith "sha256" = false)
    (htag : lookupTagLink image image_ref = none) :
    resolve_manifest_ref image image_ref = .error .manifestUnknown404 := by
  unfold resolve_manifest_ref
  rw [if_neg (by simp [hsw]), htag]

theorem resolve_tag_some {image : RepoState} {image_ref content : String}
    {r : BlobRef} (hsw : image_ref.startsWith "sha256" = false)
    (htag : lookupTagLink image image_ref = some content)
    (hparse : BlobRef.from_str content = .ok r) :
    resolve_manifest_ref image image_ref = .ok r := by
  unfold resolve_manifest_ref
  rw [if_neg (by simp [hsw]), htag]
  simp only []
  rw [hparse]

theorem resolved_not_mem {storage : Storage} {image : RepoState} {r : BlobRef}
    {revs : List BlobRef} (hrevs : parseLinkList image.revisions = .ok revs)
    (hnot : r ∉ revs) :
    get_manifest_resolved storage image r = .manifestBlobUnknown404 := by
  unfold get_manifest_resolved
  simp only [hrevs]
  rw [if_pos hnot]

theorem resolved_served {storage : Storage} {image : RepoState} {r : BlobRef}
    {revs : List BlobRef} {e : DockerManifestOrManifestList}
    (hrevs : parseLinkList image.revisions = .ok revs) (hmem : r ∈ revs)
    (hblob : lookupBlob storage r = some (.env e)) :
    get_manifest_resolved storage image r = .served r.to_digest e.mediaType := by
  unfold get_manifest_resolved
  simp only [hrevs]
  rw [if_neg (not_not_intro hmem), hblob]
  unfold serve_blob
  rw [hblob]

theorem get_manifest_of_resolved {storage : Storage} {image : RepoState}
    {image_ref : String} {r : BlobRef}
    (h : resolve_manifest_ref image image_ref = .ok r) :
    get_manifest storage image image_ref = get_manifest_resolved storage image r := by
  unfold get_manifest
  rw [h]

/-- C5 (amended): if the reference starts with the literal "sha256" it is
parsed as a digest (a parse failure is an internal error) and used directly
as the revision digest; otherwise the digest is read from the tag's
`current/link` (404 `MANIFEST_UNKNOWN` if the link is absent).  In either
case, when the revision list reads cleanly, a resolved digest not in the
revision list answers `MANIFEST_BLOB_UNKNOWN`, and one in the list whose
blob file exists and parses as a manifest envelope is served with
`Docker-Content-Digest` equal to the digest and the envelope's `mediaType`
as content type. -/
theorem c5_amended (storage : Storage) (image : RepoState) (image_ref : String) :
    ((∀ r : BlobRef, image_ref.startsWith "sha256" = true →
      BlobRef.from_str image_ref = .ok r →
      ∀ revs : List BlobRef, parseLinkList image.revisions = .ok revs →
      ((r ∉ revs →
        get_manifest storage image image_ref = .manifestBlobUnknown404) ∧
       (∀ e : DockerManifestOrManifestList, r ∈ revs →
        lookupBlob storage r = some (.env e) →
        get_manifest storage image image_ref =
          .served r.to_digest e.mediaType))) ∧
     (image_ref.startsWith "sha256" = false →
      lookupTagLink image image_ref = none →
      get_manifest storage image image_ref = .manifestUnknown404) ∧
     (∀ (content : String) (r : BlobRef),
      image_ref.startsWith "sha256" = false →
      lookupTagLink image image_ref = some content →
      BlobRef.from_str content = .ok r →
      ∀ revs : List BlobRef, parseLinkList image.revisions = .ok revs →
      ((r ∉ revs →
        get_manifest storage image image_ref = .manifestBlobUnknown404) ∧
       (∀ e : DockerManifestOrManifestList, r ∈ revs →
        lookupBlob storage r = some (.env e) →
        get_manifest storage image image_ref =
          .served r.to_digest e.mediaType)))) := by
  refine ⟨?_, ?_, ?_⟩
  · intro r hsw hparse revs hrevs
    constructor
    · intro hnot
      rw [get_manifest_of_resolved (resolve_sha hsw hparse)]
      exact resolved_not_mem hrevs hnot
    · intro e hmem hblob
      rw [get_manifest_of_resolved (resolve_sha hsw hparse)]
      exact resolved_served hrevs hmem hblob
  · intro hsw htag
    unfold get_manifest
    rw [resolve_tag_none hsw htag]
  · intro content r hsw htag hparse revs hrevs
    constructor
    · intro hnot
      rw [get_manifest_of_resolved (resolve_tag_some hsw htag hparse)]
      exact resolved_not_mem hrevs hnot
    · intro e hmem hblob
      rw [get_manifest_of_resolved (resolve_tag_some hsw htag hparse)]
      exact resolved_served hrevs hmem hblob

/-- C5 witness: the amended behaviour evaluated on a concrete store: the tag
"a:bcd" is resolved through its link file and served. -/
theorem c5_witness :
    get_manifest c5Store c5Repo "a:bcd" =
      .served refAbc.to_digest (listEnv []).mediaType :=
  ((c5_amended c5Store c5Repo "a:bcd").2.2 "sha256:abc" refAbc rfl rfl rfl
    [refAbc] rfl).2 (listEnv []) (List.mem_singleton.mpr rfl) rfl

/-! ### C8: repository scan (src/storage.rs `recurse_images_scan` /
`get_docker_images_list`, lines 167-199) -/

/-- A directory tree: files (contents irrelevant here) and directories with
named entries in `read_dir` order. -/
inductive FsTree where
  | file : FsTree
  | dir : List (String × FsTree) → FsTree
deriving Repr

def FsTree.isDir : FsTree → Bool
  | .file => false
  | .dir _ => true

/-- The directory has a direct child directory named `_manifests`. -/
def hasManifestsChild (es : List (String × FsTree)) : Bool :=
  es.any (fun e => e.2.isDir && e.1 = "_manifests")

mutual

/-- `recurse_images_scan` (src/storage.rs lines 167-191); paths as segment
lists relative to the scan start. -/
def recurse_images_scan : FsTree → List String → List (List String)
  | .file, _ => []
  | .dir es, cur => scanLoop cur [] es

/-- The `for entry in read_dir` loop: files are skipped, a directory named
`_manifests` RETURNS only the current directory (discarding the accumulated
list), any other directory is recursed into and its results appended. -/
def scanLoop : List String → List (List String) → List (String × FsTree) →
    List (List String)
  | _, acc, [] => acc
  | cur, acc, (_, .file) :: rest => scanLoop cur acc rest
  | cur, acc, (name, .dir es) :: rest =>
    if name = "_manifests" then [cur]
    else scanLoop cur (acc ++ recurse_images_scan (.dir es) (cur ++ [name])) rest

end

mutual

/-- The directory at path `p` below `t` exists and has a direct `_manifests`
child directory — the reporting condition claimed by C8. -/
def repoAtB : FsTree → List String → Bool
  | .file, _ => false
  | .dir es, [] => hasManifestsChild es
  | .dir es, name :: p => repoAtChild es name p

def repoAtChild : List (String × FsTree) → String → List String → Bool
  | [], _, _ => false
  | (n, t) :: rest, name, p => (n = name && repoAtB t p) || repoAtChild rest name p

end

mutual

/-- Entry names are unique in every directory (true of a real filesystem). -/
def noDupNamesB : FsTree → Bool
  | .file => true
  | .dir es => noDupEntries es

def noDupEntries : List (String × FsTree) → Bool
  | [] => true
  | (n, t) :: rest =>
    (!(rest.any (fun e => e.1 = n))) && noDupNamesB t && noDupEntries rest

end

/-- C6 witness: the amended parsing condition at a concrete digest string. -/
theorem c6_witness :
    (BlobRef.from_str "sha256:abc").toBool = true ↔ c6ActualCond "sha256:abc" :=
  c6_amended "sha256:abc"

